import Mathlib

/-!
Verification of the `nix-appimage` userns-chroot AppRun
(`src/appruns/userns-chroot/main.c`) against its specification.

The C program is shallowly embedded: pure helpers become Lean functions on
`String`/`List Nat` (a file is a list of bytes; a file that cannot be opened
is `none`); the syscall-facing bootstrap becomes a function over an explicit
oracle record describing the outcome of each system call, returning either
an exit code (`Except.error`) or the final exec event (`Except.ok`).
-/

set_option autoImplicit false
set_option maxRecDepth 100000

namespace UsernsChroot

/-- Exit status used by `die_if` and all other fatal paths (`EXIT_EXECERROR`). -/
def EXIT_EXECERROR : Nat := 127

/-- Maximum accepted line length (`max_line_bytes = 1024 * 1024`). -/
def max_line_bytes : Nat := 1024 * 1024

/-! ## glibc `dirname`

`read_elf_interp_dir` and `collect_ldconfig_dirs` both call libc `dirname`.
This is the glibc algorithm (string version, on `List Char`). -/

/-- Index of the last `/` in `cs`, if any (`strrchr(path, '/')`). -/
def lastSlashIdx (cs : List Char) : Option Nat :=
  (List.range cs.length).foldl
    (fun acc i => if cs.getD i ' ' = '/' then some i else acc) none

/-- Start of the run of consecutive `/` characters ending at index `k`:
walk left from `k` while the previous character is `/`. -/
def runStart (cs : List Char) : Nat → Nat
  | 0 => 0
  | r + 1 => if cs.getD r ' ' = '/' then runStart cs r else r + 1

/-- glibc `dirname` on a character list. -/
def dirnameChars (cs : List Char) : List Char :=
  match lastSlashIdx cs with
  | none => ['.']
  | some k0 =>
    let k? : Option Nat :=
      if k0 ≠ 0 ∧ k0 + 1 = cs.length then
        -- trailing slash that is not the first character: look further left
        let r := runStart cs k0
        if r ≠ 0 then lastSlashIdx (cs.take r) else some k0
      else some k0
    match k? with
    | none => ['.']
    | some k =>
      let r := runStart cs k
      if r = 0 then
        -- all characters before (and including) the slash run are slashes
        if k = 1 then cs.take 2 else cs.take 1
      else cs.take r

/-- glibc `dirname` on strings (pure: the C version mutates its argument). -/
def dirnameStr (s : String) : String :=
  String.mk (dirnameChars s.data)

/-! ## Search-path merging (`extend_ld_library_path`)

The C function builds a `string_array` called `entries`:
interpreter directory (if found), then every non-empty colon-separated
segment of `LD_LIBRARY_PATH`, then every collected ldconfig directory that
is not already somewhere in `entries`.  It then joins `entries` with `:`
and publishes the result unless the total length is zero. -/

/-- Split a character list at `:` (every segment, including empty ones). -/
def splitColon : List Char → List (List Char)
  | [] => [[]]
  | c :: cs =>
    if c = ':' then [] :: splitColon cs
    else
      match splitColon cs with
      | [] => [[c]]
      | seg :: rest => (c :: seg) :: rest

/-- Non-empty colon-separated segments of an environment value, in order
(the `while (true) { strchr(cursor, ':') ... }` loop: segments with
`len > 0` are pushed). -/
def envSegments (s : String) : List String :=
  (((splitColon s.data).filter (fun t => t ≠ [])).map String.mk)

/-- Handling of `getenv("LD_LIBRARY_PATH")`: the value is only split when the
variable is present and non-empty (`env_ld && env_ld[0] != 0`). -/
def envSegmentsOpt : Option String → List String
  | none => []
  | some s => if s = "" then [] else envSegments s

/-- The interpreter-directory contribution: pushed first, when present. -/
def interpEntries : Option String → List String
  | none => []
  | some d => [d]

/-- Entries pushed unconditionally before the ldconfig directories:
interpreter directory, then environment segments. -/
def baseEntries (interp : Option String) (env : Option String) : List String :=
  interpEntries interp ++ envSegmentsOpt env

/-- The final loop over `parsed`: append each directory that is not already
contained in the accumulated `entries` (`string_array_contains` check). -/
def addNew : List String → List String → List String
  | acc, [] => acc
  | acc, d :: ds => if acc.contains d then addNew acc ds else addNew (acc ++ [d]) ds

/-- The full `entries` array built by `extend_ld_library_path`. -/
def mergeEntries (interp : Option String) (env : Option String)
    (parsed : List String) : List String :=
  addNew (baseEntries interp env) parsed

/-- Byte length of the joined string as computed by the C code
(`total += strlen(items[i]); if (i + 1 < len) total++;`). -/
def entriesTotal : List String → Nat
  | [] => 0
  | [x] => x.length
  | x :: y :: rest => x.length + 1 + entriesTotal (y :: rest)

/-- Colon-join, mirroring the `memcpy`/`':'` concatenation loop. -/
def joinColon : List String → String
  | [] => ""
  | [x] => x
  | x :: y :: rest => x ++ ":" ++ joinColon (y :: rest)

/-- Model of `extend_ld_library_path` as a function from its three information
sources to the published value of `LD_LIBRARY_PATH` (`none` = the variable
is left untouched).  `parsed = none` models `collect_ldconfig_dirs`
failing, which makes the function return before touching the environment;
`total == 0` also skips the `setenv`. -/
def extend_ld_library_path (interp : Option String) (env : Option String)
    (parsed : Option (List String)) : Option String :=
  match parsed with
  | none => none
  | some p =>
    let entries := mergeEntries interp env p
    if entriesTotal entries = 0 then none else some (joinColon entries)

/-! ## ELF introspection

A file on disk is modelled as `Option (List Nat)`: `none` when `open`
fails, otherwise the file's bytes.  `read` of `n` bytes at offset `off`
succeeds iff the file holds at least `off + n` bytes (a `read` of zero
bytes always succeeds), mirroring the `n != (ssize_t)sizeof(...)` checks. -/

/-- Model of `lseek` + `read(fd, buf, n)` with the full-length check the C does. -/
def readBytes (file : List Nat) (off n : Nat) : Option (List Nat) :=
  if n = 0 then some []
  else if off + n ≤ file.length then some ((file.drop off).take n) else none

/-- Little-endian value of a byte list (how the x86 C structs overlay the
bytes read from the file). -/
def leNat : List Nat → Nat
  | [] => 0
  | b :: bs => b + 256 * leNat bs

/-- A little-endian struct field: `n` bytes at offset `off`. -/
def fieldLE (bytes : List Nat) (off n : Nat) : Nat :=
  leNat ((bytes.drop off).take n)

def EI_NIDENT : Nat := 16
def EI_CLASS : Nat := 4
def ELFCLASS32 : Nat := 1
def ELFCLASS64 : Nat := 2
def PT_INTERP : Nat := 3

/-- Constant `ELFMAG` (`"\x7fELF"`), compared by `memcmp(ident, ELFMAG, SELFMAG)`. -/
def ELFMAG : List Nat := [0x7f, 0x45, 0x4c, 0x46]

/-- Identity `{elf_class, machine}` as filled in by `read_elf_id`. -/
structure elf_id where
  elf_class : Nat
  machine : Nat
deriving DecidableEq, Repr

/-- Model of `read_elf_id`: read the 16-byte identification prefix, check the magic,
dispatch on the class byte, re-read the full class-specific header
(52 bytes for `Elf32_Ehdr`, 64 for `Elf64_Ehdr`) and return the class
together with `e_machine` (2 bytes at offset 18 in both layouts).  Any
failure returns `none` with no partial result. -/
def read_elf_id : Option (List Nat) → Option elf_id
  | none => none
  | some bytes =>
    match readBytes bytes 0 EI_NIDENT with
    | none => none
    | some ident =>
      if ident.take 4 ≠ ELFMAG then none
      else if fieldLE ident EI_CLASS 1 = ELFCLASS32 then
        match readBytes bytes 0 52 with
        | none => none
        | some hdr => some ⟨ELFCLASS32, fieldLE hdr 18 2⟩
      else if fieldLE ident EI_CLASS 1 = ELFCLASS64 then
        match readBytes bytes 0 64 with
        | none => none
        | some hdr => some ⟨ELFCLASS64, fieldLE hdr 18 2⟩
      else none

/-! ## ELF interpreter-directory extraction (`read_elf_interp_dir`)

The C function duplicates the same program-header walk for the 32- and
64-bit layouts; the embedding parameterizes the walk over the layout
(`sizeof` of the program header and the offsets/sizes of `p_offset` and
`p_filesz`; `p_type` is 4 bytes at offset 0 in both). -/

structure phLayout where
  psize : Nat
  offOff : Nat
  offLen : Nat
  fszOff : Nat
  fszLen : Nat
deriving DecidableEq, Repr

/-- Layout of `Elf32_Phdr`: 32 bytes; `p_offset` at 4 (4 bytes), `p_filesz` at 16 (4). -/
def layout32 : phLayout := ⟨32, 4, 4, 16, 4⟩

/-- Layout of `Elf64_Phdr`: 56 bytes; `p_offset` at 8 (8 bytes), `p_filesz` at 32 (8). -/
def layout64 : phLayout := ⟨56, 8, 8, 32, 8⟩

/-- The ELF header fields driving the program-header walk, by class:
`(layout, e_phoff, e_phentsize, e_phnum)`.  `none` when the file is absent
too short, lacks the magic, has an unknown class byte, or the full header
does not fit (exactly the early-return paths of `read_elf_interp_dir`). -/
def headerParams (bytes : List Nat) : Option (phLayout × Nat × Nat × Nat) :=
  match readBytes bytes 0 EI_NIDENT with
  | none => none
  | some ident =>
    if ident.take 4 ≠ ELFMAG then none
    else if fieldLE ident EI_CLASS 1 = ELFCLASS32 then
      match readBytes bytes 0 52 with
      | none => none
      | some hdr => some (layout32, fieldLE hdr 28 4, fieldLE hdr 42 2, fieldLE hdr 44 2)
    else if fieldLE ident EI_CLASS 1 = ELFCLASS64 then
      match readBytes bytes 0 64 with
      | none => none
      | some hdr => some (layout64, fieldLE hdr 32 8, fieldLE hdr 54 2, fieldLE hdr 56 2)
    else none

/-- The segment bytes as a C string: `interp[p_filesz] = 0` then `dirname`,
so characters stop at the first NUL byte. -/
def segString (seg : List Nat) : String :=
  String.mk ((seg.takeWhile (fun b => b ≠ 0)).map Char.ofNat)

/-- One iteration body of the program-header loop at index `j`: read the
program header, check `p_type == PT_INTERP`, read the `p_filesz` segment
bytes at `p_offset`, and take `dirname` of the resulting string. -/
def interpAt (bytes : List Nat) (L : phLayout) (phoff phentsize j : Nat) :
    Option String :=
  match readBytes bytes (phoff + j * phentsize) L.psize with
  | none => none
  | some ph =>
    if fieldLE ph 0 4 = PT_INTERP then
      match readBytes bytes (fieldLE ph L.offOff L.offLen) (fieldLE ph L.fszOff L.fszLen) with
      | none => none
      | some seg => some (dirnameStr (segString seg))
    else none

/-- The `for (i = 0; i < e_phnum; i++)` walk: a failing program-header read
breaks with no result; a non-`PT_INTERP` entry continues; the first
`PT_INTERP` entry ends the loop with the result of reading its segment
(`none` if that read falls short).  `rem` is the number of indices left. -/
def interpLoop (bytes : List Nat) (L : phLayout) (phoff phentsize : Nat) :
    Nat → Nat → Option String
  | _, 0 => none
  | j, rem + 1 =>
    match readBytes bytes (phoff + j * phentsize) L.psize with
    | none => none
    | some ph =>
      if fieldLE ph 0 4 = PT_INTERP then
        match readBytes bytes (fieldLE ph L.offOff L.offLen) (fieldLE ph L.fszOff L.fszLen) with
        | none => none
        | some seg => some (dirnameStr (segString seg))
      else interpLoop bytes L phoff phentsize (j + 1) rem

/-- Model of `read_elf_interp_dir`: magic/class detection as in `read_elf_id`, then
the program-header walk for the class's layout. -/
def read_elf_interp_dir : Option (List Nat) → Option String
  | none => none
  | some bytes =>
    match headerParams bytes with
    | none => none
    | some (L, phoff, phentsize, phnum) => interpLoop bytes L phoff phentsize 0 phnum

/-- Model of `find_entrypoint_interp_dir`: resolve `appdir/entrypoint` via
`readlink` (`entryTarget`, `none` when `readlink` fails), introspect the
target; when that fails and the target starts with `"/nix/"`, retry on the
bundled copy `appdir ++ target`.  `fs` maps a path to the file it opens. -/
def find_entrypoint_interp_dir (fs : String → Option (List Nat))
    (appdir : String) (entryTarget : Option String) : Option String :=
  match entryTarget with
  | none => none
  | some exe =>
    match read_elf_interp_dir (fs exe) with
    | some d => some d
    | none =>
      if "/nix/".data.isPrefixOf exe.data then read_elf_interp_dir (fs (appdir ++ exe))
      else none

/-- The class byte `ident[EI_CLASS]` as a field of the whole file. -/
def classOf (bytes : List Nat) : Nat := fieldLE bytes EI_CLASS 1

/-! ## Library cache enumeration (`collect_ldconfig_dirs`)

The lister's output is a list of lines (strings, as produced by `getline`,
possibly with the trailing newline — `trim_in_place` removes it); `fs`
maps candidate paths to file contents for ELF identification. -/

/-- Result of `strstr(line, "=>")`: the text after the first `=>`. -/
def afterArrow : List Char → Option (List Char)
  | [] => none
  | '=' :: '>' :: rest => some rest
  | _ :: rest => afterArrow rest

/-- Character class of C `isspace` (space, `\t`, `\n`, `\v`, `\f`, `\r`). -/
def isSpaceC (c : Char) : Bool :=
  c = ' ' || c = '\t' || c = '\n' || c = '\x0b' || c = '\x0c' || c = '\r'

/-- Model of `trim_in_place`: strip leading and trailing `isspace` characters. -/
def trimC (cs : List Char) : String :=
  String.mk (((cs.dropWhile isSpaceC).reverse.dropWhile isSpaceC).reverse)

/-- Processing of one `ldconfig -p` output line: skip lines without `=>`;
trim the text after it; skip an empty path; skip candidates whose ELF
identification fails or whose identity differs from the running
executable's; otherwise append the candidate's `dirname` unless already
present. -/
def processLine (fs : String → Option (List Nat)) (self_id : elf_id)
    (acc : List String) (line : String) : List String :=
  match afterArrow line.data with
  | none => acc
  | some rest =>
    let path := trimC rest
    if path = "" then acc
    else
      match read_elf_id (fs path) with
      | none => acc
      | some lib_id =>
        if lib_id.elf_class ≠ self_id.elf_class ∨ lib_id.machine ≠ self_id.machine then acc
        else
          let dir := dirnameStr path
          if acc.contains dir then acc else acc ++ [dir]

/-- The `getline` loop: a line longer than `max_line_bytes` fails the whole
enumeration (the C checks the byte count returned by `getline`). -/
def collectLines (fs : String → Option (List Nat)) (self_id : elf_id) :
    List String → List String → Option (List String)
  | acc, [] => some acc
  | acc, l :: ls =>
    if max_line_bytes < l.length then none
    else collectLines fs self_id (processLine fs self_id acc l) ls

/-- Model of `collect_ldconfig_dirs`: identify the running executable
(`/proc/self/exe`, given as `selfFile`), then fold over the lister's
output lines.  `none` models the `return -1` paths. -/
def collect_ldconfig_dirs (fs : String → Option (List Nat))
    (selfFile : Option (List Nat)) (lines : List String) : Option (List String) :=
  match read_elf_id selfFile with
  | none => none
  | some self_id => collectLines fs self_id [] lines

/-! ## Namespace/mount bootstrap (`child_main`)

System calls are modelled by oracles giving each call's outcome.  The
bootstrap either exits (`Except.error` with the exit status) or execs
(`Except.ok (exe, argv)`). -/

/-- Outcome of `stat`: `none` = failure, otherwise whether the entry is a
directory (`S_ISDIR`) and its `st_mode`. -/
structure statInfo where
  isDir : Bool
  mode : Nat
deriving DecidableEq, Repr

/-- Per-entry filesystem call outcomes during root population. -/
structure FsOracle where
  statOf : String → Option statInfo
  mkdirOk : String → Bool
  creatOk : String → Bool
  mountOk : String → String → Bool

/-- Computation of `st_mode & ~S_IFMT` (clear the file-type bits; `mode_t` is 32 bits). -/
def clearIFMT (m : Nat) : Nat := Nat.land m 0xFFFF0FFF

/-- Observable filesystem operations performed while building the
synthetic root. -/
inductive Action where
  | mkdirAct : String → Nat → Action
  | creatAct : String → Nat → Action
  | recBindAttempt : String → String → Action
  | logErr : String → Action
deriving DecidableEq, Repr

/-- Root-population body for one directory entry `name` of `/`:
`.`/`..`/`nix` are skipped; `stat` failure is logged and skipped;
a directory is `mkdir`ed (fatal on failure: `die_if`) then recursively
bind-mounted (mount failure only logged); a non-directory is `creat`ed
(failure only logged) then recursively bind-mounted (failure logged). -/
def populateEntry (o : FsOracle) (mountroot : String) (name : String) :
    Except Nat (List Action) :=
  if name = "." ∨ name = ".." ∨ name = "nix" then .ok []
  else
    let f := "/" ++ name
    let t := mountroot ++ "/" ++ name
    match o.statOf f with
    | none => .ok [.logErr ("stat " ++ f)]
    | some st =>
      if st.isDir then
        if o.mkdirOk t then
          if o.mountOk f t then
            .ok [.mkdirAct t (clearIFMT st.mode), .recBindAttempt f t]
          else
            .ok [.mkdirAct t (clearIFMT st.mode), .recBindAttempt f t,
                 .logErr ("mount " ++ f ++ " -> " ++ t)]
        else .error EXIT_EXECERROR
      else
        if o.creatOk t then
          if o.mountOk f t then
            .ok [.creatAct t (clearIFMT st.mode), .recBindAttempt f t]
          else
            .ok [.creatAct t (clearIFMT st.mode), .recBindAttempt f t,
                 .logErr ("mount " ++ f ++ " -> " ++ t)]
        else .ok [.logErr ("creat " ++ t)]

/-- The `readdir` loop over the entries of `/`. -/
def populateRoot (o : FsOracle) (mountroot : String) :
    List String → Except Nat (List Action)
  | [] => .ok []
  | n :: ns =>
    match populateEntry o mountroot n with
    | .error c => .error c
    | .ok acts =>
      match populateRoot o mountroot ns with
      | .error c => .error c
      | .ok rest => .ok (acts ++ rest)

/-- Store-tree step: `mkdir(<mountroot>/nix, 0777)` and recursive
bind-mount of `<appdir>/nix` onto it, each fatal on failure (`die_if`). -/
def mountStore (mkdirNixOk mountNixOk : Bool) (appdir mountroot : String) :
    Except Nat (List Action) :=
  if mkdirNixOk then
    if mountNixOk then
      .ok [.mkdirAct (mountroot ++ "/nix") 511,
           .recBindAttempt (appdir ++ "/nix") (mountroot ++ "/nix")]
    else .error EXIT_EXECERROR
  else .error EXIT_EXECERROR

/-- Flags passed to `unshare`: a mount namespace always, plus a user
namespace iff the caller is not root. -/
def cloneFlags (uid : Nat) : List String :=
  if uid ≠ 0 then ["CLONE_NEWNS", "CLONE_NEWUSER"] else ["CLONE_NEWNS"]

/-- Identity-map file writes (path, content) in program order, for a
non-root caller; root performs none.  The formats are the literal
`"%d %d 1\n"` calls: uid map gets `(uid, uid)`, gid map gets `(uid, gid)`. -/
def identityEvents (uid gid : Nat) : List (String × String) :=
  if uid ≠ 0 then
    [("/proc/self/uid_map", toString uid ++ " " ++ toString uid ++ " 1\n"),
     ("/proc/self/setgroups", "deny"),
     ("/proc/self/gid_map", toString uid ++ " " ++ toString gid ++ " 1\n")]
  else []

/-- A single-line id-map in the kernel's `uid_map`/`gid_map` format:
inside-namespace id, outside-namespace id, range length. -/
def mapLineFields (insideId outsideId count : Nat) : String :=
  toString insideId ++ " " ++ toString outsideId ++ " " ++ toString count ++ "\n"

/-- Outcomes of every syscall made by `child_main` after the search-path
step (which cannot exit and is modelled separately). -/
structure BootOracle where
  unshareOk : Bool
  uidMapOk : Bool
  setgroupsOk : Bool
  gidMapOk : Bool
  tmpfsOk : Bool
  unbindableOk : Bool
  rootEntries : List String
  fs : FsOracle
  mkdirNixOk : Bool
  mountNixOk : Bool
  getcwdOk : Bool
  chrootOk : Bool
  chdirOk : Bool
  entryTarget : Option String
  execOk : Bool

/-- Model of `child_main` from the `unshare` call on: each `die_if` becomes
`.error EXIT_EXECERROR`; success ends in `execv(exe, argv)`, modelled as
`.ok (exe, argv)` (the process image is replaced, so the function never
returns on that path). -/
def child_main (o : BootOracle) (uid gid : Nat) (appdir mountroot : String)
    (argv : List String) : Except Nat (String × List String) :=
  if ¬ o.unshareOk then .error EXIT_EXECERROR
  else if uid ≠ 0 ∧ ¬ o.uidMapOk then .error EXIT_EXECERROR
  else if uid ≠ 0 ∧ ¬ o.setgroupsOk then .error EXIT_EXECERROR
  else if uid ≠ 0 ∧ ¬ o.gidMapOk then .error EXIT_EXECERROR
  else if ¬ o.tmpfsOk then .error EXIT_EXECERROR
  else if ¬ o.unbindableOk then .error EXIT_EXECERROR
  else
    match populateRoot o.fs mountroot o.rootEntries with
    | .error c => .error c
    | .ok _ =>
      match mountStore o.mkdirNixOk o.mountNixOk appdir mountroot with
      | .error c => .error c
      | .ok _ =>
        if ¬ o.getcwdOk then .error EXIT_EXECERROR
        else if ¬ o.chrootOk then .error EXIT_EXECERROR
        else if ¬ o.chdirOk then .error EXIT_EXECERROR
        else
          match o.entryTarget with
          | none => .error EXIT_EXECERROR
          | some exe =>
            if o.execOk then .ok (exe, argv) else .error EXIT_EXECERROR

/-! ## Concrete sample data for witnesses -/

/-- A minimal well-formed 64-bit ELF file: magic, class 64, machine 62
(x86-64), one program header of type `PT_INTERP` whose segment holds
`"/lib64/ld-linux-x86-64.so.2\x00"` at offset 120. -/
def sampleElf64 : List Nat :=
  [127, 69, 76, 70, 2, 1, 0, 0, 0, 0, 0, 0, 0, 0, 0, 0,
   0, 0, 62, 0, 0, 0, 0, 0, 0, 0, 0, 0, 0, 0, 0, 0,
   64, 0, 0, 0, 0, 0, 0, 0, 0, 0, 0, 0, 0, 0, 0, 0,
   0, 0, 0, 0, 0, 0, 56, 0, 1, 0, 0, 0, 0, 0, 0, 0,
   3, 0, 0, 0, 0, 0, 0, 0, 120, 0, 0, 0, 0, 0, 0, 0,
   0, 0, 0, 0, 0, 0, 0, 0, 0, 0, 0, 0, 0, 0, 0, 0,
   28, 0, 0, 0, 0, 0, 0, 0, 0, 0, 0, 0, 0, 0, 0, 0,
   0, 0, 0, 0, 0, 0, 0, 0,
   47, 108, 105, 98, 54, 52, 47, 108, 100, 45, 108, 105, 110, 117, 120,
   45, 120, 56, 54, 45, 54, 52, 46, 115, 111, 46, 50, 0]

/-- Sample oracle: every call succeeds; `/swapfile` stats as a regular
file (mode 0640), everything else as a directory (mode 0755). -/
def okFsOracle : FsOracle :=
  { statOf := fun p => if p = "/swapfile" then some ⟨false, 416⟩ else some ⟨true, 493⟩,
    mkdirOk := fun _ => true,
    creatOk := fun _ => true,
    mountOk := fun _ _ => true }

/-- Sample oracle: `stat("/usr")` fails, everything else succeeds, and
every other path stats as a regular file (mode 0644). -/
def statFailOracle : FsOracle :=
  { statOf := fun p => if p = "/usr" then none else some ⟨false, 420⟩,
    mkdirOk := fun _ => true,
    creatOk := fun _ => true,
    mountOk := fun _ _ => true }

/-- Sample oracle: every entry stats as a directory but `mkdir` fails. -/
def mkdirFailOracle : FsOracle :=
  { statOf := fun _ => some ⟨true, 493⟩,
    mkdirOk := fun _ => false,
    creatOk := fun _ => true,
    mountOk := fun _ _ => true }

/-- Sample bootstrap oracle: every syscall succeeds, the real root holds
the usual entries, and the entrypoint symlink resolves to a store path. -/
def okBootOracle : BootOracle :=
  { unshareOk := true, uidMapOk := true, setgroupsOk := true, gidMapOk := true,
    tmpfsOk := true, unbindableOk := true,
    rootEntries := [".", "..", "usr", "swapfile", "nix"],
    fs := okFsOracle,
    mkdirNixOk := true, mountNixOk := true,
    getcwdOk := true, chrootOk := true, chdirOk := true,
    entryTarget := some "/nix/store/y/bin/app", execOk := true }

/-! ## Theorems about the search-path merger -/

theorem addNew_cons_mem {acc : List String} {d : String} (h : d ∈ acc)
    (ds : List String) : addNew acc (d :: ds) = addNew acc ds := by
  have hc : acc.contains d = true := by
    simp [List.contains, List.elem_eq_mem, h]
  simp only [addNew, hc, if_true]

theorem addNew_cons_not_mem {acc : List String} {d : String} (h : d ∉ acc)
    (ds : List String) : addNew acc (d :: ds) = addNew (acc ++ [d]) ds := by
  have hc : acc.contains d = false := by
    simp [List.contains, List.elem_eq_mem, h]
  show (if acc.contains d = true then addNew acc ds else addNew (acc ++ [d]) ds) =
    addNew (acc ++ [d]) ds
  rw [hc]
  exact if_neg (by simp)

/-- Loop invariant of the final `parsed` loop: the accumulated array only
grows by a duplicate-free suffix of directories drawn from `parsed`, none of
which was already present; and every parsed directory ends up present. -/
theorem addNew_spec (p : List String) : ∀ acc : List String,
    ∃ s, addNew acc p = acc ++ s ∧ s.Nodup ∧
      (∀ d ∈ s, d ∈ p ∧ d ∉ acc) ∧ (∀ d ∈ p, d ∈ addNew acc p) := by
  induction p with
  | nil =>
    intro acc
    exact ⟨[], by simp [addNew], by simp, by simp, by simp⟩
  | cons d ds ih =>
    intro acc
    by_cases hd : d ∈ acc
    · obtain ⟨s, hs, hnd, hmem, hall⟩ := ih acc
      rw [addNew_cons_mem hd ds]
      refine ⟨s, hs, hnd, ?_, ?_⟩
      · exact fun x hx => ⟨List.mem_cons_of_mem _ (hmem x hx).1, (hmem x hx).2⟩
      · intro x hx
        rcases List.mem_cons.mp hx with rfl | hx'
        · rw [hs]
          exact List.mem_append.mpr (Or.inl hd)
        · exact hall x hx'
    · obtain ⟨s, hs, hnd, hmem, hall⟩ := ih (acc ++ [d])
      rw [addNew_cons_not_mem hd ds]
      refine ⟨d :: s, ?_, ?_, ?_, ?_⟩
      · rw [hs]
        simp
      · refine List.nodup_cons.mpr ⟨?_, hnd⟩
        intro hds
        exact (hmem d hds).2 (List.mem_append.mpr (Or.inr (List.mem_singleton.mpr rfl)))
      · intro x hx
        rcases List.mem_cons.mp hx with rfl | hx'
        · exact ⟨List.mem_cons_self _ _, hd⟩
        · refine ⟨List.mem_cons_of_mem _ (hmem x hx').1, ?_⟩
          intro hxacc
          exact (hmem x hx').2 (List.mem_append.mpr (Or.inl hxacc))
      · intro x hx
        rcases List.mem_cons.mp hx with rfl | hx'
        · rw [hs]
          simp
        · exact hall x hx'

/-- C1 (amended): the merged entry list is exactly the interpreter directory
(if present) followed by the non-empty environment segments in order,
followed by a suffix of resolved directories; that suffix is duplicate-free,
contains only resolved directories that were not already present earlier,
and every resolved directory occurs in the merge.  The published string is
the colon-join of this list.  (De-duplication applies only to the
resolved-directory suffix: the interpreter directory and the environment
segments are pushed without any duplicate check.) -/
theorem merged_path_structure (interp env : Option String) (parsed : List String) :
    ∃ s, mergeEntries interp env parsed = baseEntries interp env ++ s ∧
      s.Nodup ∧
      (∀ d ∈ s, d ∈ parsed ∧ d ∉ baseEntries interp env) ∧
      (∀ d ∈ parsed, d ∈ mergeEntries interp env parsed) ∧
      (∀ r, extend_ld_library_path interp env (some parsed) = some r →
        r = joinColon (mergeEntries interp env parsed)) := by
  obtain ⟨s, hs, hnd, hmem, hall⟩ := addNew_spec parsed (baseEntries interp env)
  refine ⟨s, hs, hnd, hmem, hall, ?_⟩
  intro r hr
  by_cases h0 : entriesTotal (mergeEntries interp env parsed) = 0
  · simp [extend_ld_library_path, h0] at hr
  · simpa [extend_ld_library_path, h0] using hr.symm

/-- C1 fails as stated: with no interpreter directory, environment value
`"/a:/a"` and no resolved directories, the merged list is `["/a", "/a"]`
(the environment segments are not de-duplicated against each other), so the
published search path `"/a:/a"` has a duplicate entry. -/
theorem merged_path_duplicate_counterexample :
    mergeEntries none (some "/a:/a") [] = ["/a", "/a"] ∧
    ¬ (mergeEntries none (some "/a:/a") []).Nodup ∧
    extend_ld_library_path none (some "/a:/a") (some []) = some "/a:/a" := by
  refine ⟨by decide, by decide, by decide⟩

/-- Instance of `merged_path_structure` at a concrete input: the scenario of spec §8. -/
theorem merged_path_structure_witness :
    mergeEntries (some "/lib64") (some "/opt/x:/opt/y") ["/opt/y", "/opt/z"] =
      baseEntries (some "/lib64") (some "/opt/x:/opt/y") ++ ["/opt/z"] ∧
    extend_ld_library_path (some "/lib64") (some "/opt/x:/opt/y")
        (some ["/opt/y", "/opt/z"]) = some "/lib64:/opt/x:/opt/y:/opt/z" := by
  obtain ⟨s, hs, hnd, hmem, hall, hpub⟩ :=
    merged_path_structure (some "/lib64") (some "/opt/x:/opt/y") ["/opt/y", "/opt/z"]
  have hm : mergeEntries (some "/lib64") (some "/opt/x:/opt/y") ["/opt/y", "/opt/z"] =
      ["/lib64", "/opt/x", "/opt/y", "/opt/z"] := by decide
  have hbase : baseEntries (some "/lib64") (some "/opt/x:/opt/y") =
      ["/lib64", "/opt/x", "/opt/y"] := by decide
  have hsuffix : s = ["/opt/z"] := by
    have := hs
    rw [hm, hbase] at this
    simpa using this.symm
  constructor
  · rw [hm, hbase]; rfl
  · have := hpub "/lib64:/opt/x:/opt/y:/opt/z" (by decide)
    decide

/-- The byte count computed by the joining loop equals the length of the
joined string. -/
theorem joinColon_length (xs : List String) :
    (joinColon xs).length = entriesTotal xs := by
  induction xs with
  | nil => rfl
  | cons x rest ih =>
    cases rest with
    | nil => rfl
    | cons y t =>
      have h1 : joinColon (x :: y :: t) = x ++ ":" ++ joinColon (y :: t) := rfl
      have h2 : entriesTotal (x :: y :: t) = x.length + 1 + entriesTotal (y :: t) := rfl
      have h3 : (":" : String).length = 1 := rfl
      rw [h1, h2, String.length_append, String.length_append, ih, h3]

/-- C9: when all three sources are empty (no interpreter directory, no
non-empty environment segment, no resolved directories — including the case
where cache enumeration failed outright), no value is published; and the
merger never publishes the empty string (the `total == 0` guard). -/
theorem extend_empty_untouched (env : Option String)
    (parsed : Option (List String))
    (henv : envSegmentsOpt env = [])
    (hparsed : parsed = none ∨ parsed = some []) :
    extend_ld_library_path none env parsed = none ∧
    (∀ i e p, extend_ld_library_path i e p ≠ some "") := by
  constructor
  · rcases hparsed with rfl | rfl
    · rfl
    · simp [extend_ld_library_path, mergeEntries, addNew, baseEntries,
        interpEntries, henv, entriesTotal]
  · intro i e p h
    match p with
    | none => simp [extend_ld_library_path] at h
    | some q =>
      by_cases h0 : entriesTotal (mergeEntries i e q) = 0
      · simp [extend_ld_library_path, h0] at h
      · simp only [extend_ld_library_path, h0, if_false] at h
        have hlen : (joinColon (mergeEntries i e q)).length = 0 := by
          rw [Option.some_inj] at h
          rw [h]
          rfl
        rw [joinColon_length] at hlen
        exact h0 hlen

/-- Instance of `extend_empty_untouched` applied at a concrete input: environment value
`":::"` has only empty segments, and cache enumeration returned no
directories. -/
theorem extend_empty_untouched_witness :
    extend_ld_library_path none (some ":::") (some []) = none ∧
    extend_ld_library_path (some "/lib") none (some []) ≠ some "" := by
  have h := extend_empty_untouched (some ":::") (some []) (by decide) (Or.inr rfl)
  exact ⟨h.1, h.2 (some "/lib") none (some [])⟩

/-! ## Theorems about ELF introspection -/

theorem readBytes_zero_off (bytes : List Nat) (n : Nat) :
    readBytes bytes 0 n = if n ≤ bytes.length then some (bytes.take n) else none := by
  by_cases h0 : n = 0
  · subst h0
    simp [readBytes]
  · simp [readBytes, h0]

theorem fieldLE_take (bytes : List Nat) (m off n : Nat) (h : off + n ≤ m) :
    fieldLE (bytes.take m) off n = fieldLE bytes off n := by
  unfold fieldLE
  rw [List.drop_take, List.take_take, inf_eq_left.mpr (show n ≤ m - off by omega)]

theorem take_four_of_take (bytes : List Nat) :
    (bytes.take EI_NIDENT).take 4 = bytes.take 4 := by
  rw [List.take_take, inf_eq_left.mpr (show (4 : Nat) ≤ EI_NIDENT by decide)]

/-- Characterization of `read_elf_id` by conditions on the raw file. -/
theorem read_elf_id_eq (bytes : List Nat) :
    read_elf_id (some bytes) =
      if EI_NIDENT ≤ bytes.length then
        if bytes.take 4 = ELFMAG then
          if classOf bytes = ELFCLASS32 then
            if 52 ≤ bytes.length then some ⟨ELFCLASS32, fieldLE bytes 18 2⟩ else none
          else if classOf bytes = ELFCLASS64 then
            if 64 ≤ bytes.length then some ⟨ELFCLASS64, fieldLE bytes 18 2⟩ else none
          else none
        else none
      else none := by
  by_cases h16 : EI_NIDENT ≤ bytes.length
  case neg =>
    have hr : readBytes bytes 0 EI_NIDENT = none := by
      rw [readBytes_zero_off, if_neg h16]
    rw [if_neg h16]
    simp only [read_elf_id, hr]
  case pos =>
    have hr : readBytes bytes 0 EI_NIDENT = some (bytes.take EI_NIDENT) := by
      rw [readBytes_zero_off, if_pos h16]
    have hclass : fieldLE (bytes.take EI_NIDENT) EI_CLASS 1 = classOf bytes :=
      fieldLE_take bytes EI_NIDENT EI_CLASS 1 (by decide)
    rw [if_pos h16]
    by_cases hmag : bytes.take 4 = ELFMAG
    · rw [if_pos hmag]
      by_cases h32 : classOf bytes = ELFCLASS32
      · rw [if_pos h32]
        by_cases h52 : 52 ≤ bytes.length
        · have hr52 : readBytes bytes 0 52 = some (bytes.take 52) := by
            rw [readBytes_zero_off, if_pos h52]
          rw [if_pos h52]
          simp only [read_elf_id, hr, take_four_of_take, hmag, hclass, h32, hr52,
            fieldLE_take bytes 52 18 2 (by decide)]
          simp
        · have hr52 : readBytes bytes 0 52 = none := by
            rw [readBytes_zero_off, if_neg h52]
          rw [if_neg h52]
          simp only [read_elf_id, hr, take_four_of_take, hmag, hclass, h32, hr52]
          simp
      · rw [if_neg h32]
        by_cases h64 : classOf bytes = ELFCLASS64
        · rw [if_pos h64]
          by_cases h64l : 64 ≤ bytes.length
          · have hr64 : readBytes bytes 0 64 = some (bytes.take 64) := by
              rw [readBytes_zero_off, if_pos h64l]
            rw [if_pos h64l]
            simp only [read_elf_id, hr, take_four_of_take, hmag, hclass, h32, h64, hr64,
              fieldLE_take bytes 64 18 2 (by decide)]
            simp
            intro hcontra
            exact absurd hcontra (by decide)
          · have hr64 : readBytes bytes 0 64 = none := by
              rw [readBytes_zero_off, if_neg h64l]
            rw [if_neg h64l]
            simp only [read_elf_id, hr, take_four_of_take, hmag, hclass, h32, h64, hr64]
            simp
            intro hcontra
            exact absurd hcontra (by decide)
        · rw [if_neg h64]
          simp only [read_elf_id, hr, take_four_of_take, hmag, hclass, h32, h64]
          simp
    · rw [if_neg hmag]
      simp only [read_elf_id, hr, take_four_of_take, hmag]
      simp
      intro hcontra
      exact absurd hcontra hmag

/-- C7: ELF identity reading fails totally — returning `none`, never a
partially populated identity — whenever the file cannot be opened, is
shorter than the 16-byte identification prefix, lacks the ELF magic, or
the full 32/64-bit header re-read falls short; and any success returns
exactly the class byte and the header's `e_machine` field. -/
theorem read_elf_id_total_failure :
    read_elf_id none = none ∧
    (∀ bytes : List Nat, bytes.length < EI_NIDENT → read_elf_id (some bytes) = none) ∧
    (∀ bytes : List Nat, bytes.take 4 ≠ ELFMAG → read_elf_id (some bytes) = none) ∧
    (∀ bytes : List Nat, classOf bytes = ELFCLASS32 → bytes.length < 52 →
      read_elf_id (some bytes) = none) ∧
    (∀ bytes : List Nat, classOf bytes = ELFCLASS64 → bytes.length < 64 →
      read_elf_id (some bytes) = none) ∧
    (∀ (bytes : List Nat) (id : elf_id), read_elf_id (some bytes) = some id →
      bytes.take 4 = ELFMAG ∧ id.elf_class = classOf bytes ∧
      id.machine = fieldLE bytes 18 2 ∧
      ((classOf bytes = ELFCLASS32 ∧ 52 ≤ bytes.length) ∨
       (classOf bytes = ELFCLASS64 ∧ 64 ≤ bytes.length))) := by
  refine ⟨rfl, ?_, ?_, ?_, ?_, ?_⟩
  · intro bytes h
    rw [read_elf_id_eq, if_neg (by omega)]
  · intro bytes h
    rw [read_elf_id_eq]
    by_cases h16 : EI_NIDENT ≤ bytes.length
    · rw [if_pos h16, if_neg h]
    · rw [if_neg h16]
  · intro bytes h32 h52
    rw [read_elf_id_eq]
    by_cases h16 : EI_NIDENT ≤ bytes.length
    · by_cases hmag : bytes.take 4 = ELFMAG
      · rw [if_pos h16, if_pos hmag, if_pos h32, if_neg (by omega)]
      · rw [if_pos h16, if_neg hmag]
    · rw [if_neg h16]
  · intro bytes h64 h64l
    rw [read_elf_id_eq]
    by_cases h16 : EI_NIDENT ≤ bytes.length
    · by_cases hmag : bytes.take 4 = ELFMAG
      · rw [if_pos h16, if_pos hmag, if_neg (by rw [h64]; decide), if_pos h64,
          if_neg (by omega)]
      · rw [if_pos h16, if_neg hmag]
    · rw [if_neg h16]
  · intro bytes id h
    rw [read_elf_id_eq] at h
    by_cases h16 : EI_NIDENT ≤ bytes.length
    · rw [if_pos h16] at h
      by_cases hmag : bytes.take 4 = ELFMAG
      · rw [if_pos hmag] at h
        by_cases h32 : classOf bytes = ELFCLASS32
        · rw [if_pos h32] at h
          by_cases h52 : 52 ≤ bytes.length
          · rw [if_pos h52, Option.some_inj] at h
            subst h
            exact ⟨hmag, h32.symm, rfl, Or.inl ⟨h32, h52⟩⟩
          · rw [if_neg h52] at h
            exact Option.noConfusion h
        · rw [if_neg h32] at h
          by_cases h64 : classOf bytes = ELFCLASS64
          · rw [if_pos h64] at h
            by_cases h64l : 64 ≤ bytes.length
            · rw [if_pos h64l, Option.some_inj] at h
              subst h
              exact ⟨hmag, h64.symm, rfl, Or.inr ⟨h64, h64l⟩⟩
            · rw [if_neg h64l] at h
              exact Option.noConfusion h
          · rw [if_neg h64] at h
            exact Option.noConfusion h
      · rw [if_neg hmag] at h
        exact Option.noConfusion h
    · rw [if_neg h16] at h
      exact Option.noConfusion h

/-- Instance of `read_elf_id_total_failure` at concrete inputs: a file missing the
magic, a 64-bit file truncated to 60 bytes, and a successful read. -/
theorem read_elf_id_total_failure_witness :
    read_elf_id (some [1, 2, 3]) = none ∧
    read_elf_id (some (List.replicate 10 0)) = none := by
  refine ⟨read_elf_id_total_failure.2.2.1 [1, 2, 3] (by decide), ?_⟩
  exact read_elf_id_total_failure.2.1 (List.replicate 10 0) (by decide)

theorem interpAt_some (bytes : List Nat) (L : phLayout) (phoff phentsize k : Nat)
    (d : String) (h : interpAt bytes L phoff phentsize k = some d) :
    ∃ ph seg, readBytes bytes (phoff + k * phentsize) L.psize = some ph ∧
      fieldLE ph 0 4 = PT_INTERP ∧
      readBytes bytes (fieldLE ph L.offOff L.offLen) (fieldLE ph L.fszOff L.fszLen) = some seg ∧
      d = dirnameStr (segString seg) := by
  cases hr : readBytes bytes (phoff + k * phentsize) L.psize with
  | none =>
    simp only [interpAt, hr] at h
    exact Option.noConfusion h
  | some ph =>
    simp only [interpAt, hr] at h
    by_cases ht : fieldLE ph 0 4 = PT_INTERP
    · rw [if_pos ht] at h
      cases hs : readBytes bytes (fieldLE ph L.offOff L.offLen)
          (fieldLE ph L.fszOff L.fszLen) with
      | none => rw [hs] at h; exact Option.noConfusion h
      | some seg =>
        rw [hs, Option.some_inj] at h
        exact ⟨ph, seg, rfl, ht, hs, h.symm⟩
    · rw [if_neg ht] at h
      exact Option.noConfusion h

theorem interpLoop_sound (bytes : List Nat) (L : phLayout) (phoff phentsize : Nat) :
    ∀ (rem j : Nat) (d : String), interpLoop bytes L phoff phentsize j rem = some d →
      ∃ k, j ≤ k ∧ k < j + rem ∧ interpAt bytes L phoff phentsize k = some d ∧
        ∀ m, j ≤ m → m < k →
          ∃ ph, readBytes bytes (phoff + m * phentsize) L.psize = some ph ∧
            fieldLE ph 0 4 ≠ PT_INTERP := by
  intro rem
  induction rem with
  | zero =>
    intro j d h
    exact absurd h (by simp [interpLoop])
  | succ n ih =>
    intro j d h
    cases hr : readBytes bytes (phoff + j * phentsize) L.psize with
    | none =>
      simp only [interpLoop, hr] at h
      exact Option.noConfusion h
    | some ph =>
      simp only [interpLoop, hr] at h
      by_cases ht : fieldLE ph 0 4 = PT_INTERP
      · rw [if_pos ht] at h
        refine ⟨j, le_refl j, by omega, ?_, ?_⟩
        · simp only [interpAt, hr]
          rw [if_pos ht]
          exact h
        · intro m hm1 hm2
          exact absurd (hm1.trans_lt hm2) (lt_irrefl j)
      · rw [if_neg ht] at h
        obtain ⟨k, hk1, hk2, hk3, hk4⟩ := ih (j + 1) d h
        refine ⟨k, by omega, by omega, hk3, ?_⟩
        intro m hm1 hm2
        by_cases hmj : m = j
        · subst hmj
          exact ⟨ph, hr, ht⟩
        · exact hk4 m (by omega) hm2

/-- C5: the interpreter-directory extractor either fails with no result
(`none`: unopenable, malformed, no `PT_INTERP`, or a read falls short) or
returns exactly the `dirname` of the path string stored in the first
`PT_INTERP` program header — never a partial or garbage directory; and the
entrypoint resolver tries the bundled fallback `appdir ++ target` exactly
when direct introspection fails and the target starts with `"/nix/"`. -/
theorem interp_dir_sound :
    read_elf_interp_dir none = none ∧
    (∀ bytes : List Nat, headerParams bytes = none →
      read_elf_interp_dir (some bytes) = none) ∧
    (∀ (bytes : List Nat) (d : String), read_elf_interp_dir (some bytes) = some d →
      ∃ L phoff phentsize phnum k ph seg,
        headerParams bytes = some (L, phoff, phentsize, phnum) ∧
        k < phnum ∧
        readBytes bytes (phoff + k * phentsize) L.psize = some ph ∧
        fieldLE ph 0 4 = PT_INTERP ∧
        readBytes bytes (fieldLE ph L.offOff L.offLen) (fieldLE ph L.fszOff L.fszLen) =
          some seg ∧
        d = dirnameStr (segString seg) ∧
        (∀ m, m < k →
          ∃ ph', readBytes bytes (phoff + m * phentsize) L.psize = some ph' ∧
            fieldLE ph' 0 4 ≠ PT_INTERP)) ∧
    (∀ (fs : String → Option (List Nat)) (appdir : String),
      find_entrypoint_interp_dir fs appdir none = none) ∧
    (∀ (fs : String → Option (List Nat)) (appdir exe : String) (d : String),
      read_elf_interp_dir (fs exe) = some d →
      find_entrypoint_interp_dir fs appdir (some exe) = some d) ∧
    (∀ (fs : String → Option (List Nat)) (appdir exe : String),
      read_elf_interp_dir (fs exe) = none →
      "/nix/".data.isPrefixOf exe.data = true →
      find_entrypoint_interp_dir fs appdir (some exe) =
        read_elf_interp_dir (fs (appdir ++ exe))) ∧
    (∀ (fs : String → Option (List Nat)) (appdir exe : String),
      read_elf_interp_dir (fs exe) = none →
      "/nix/".data.isPrefixOf exe.data = false →
      find_entrypoint_interp_dir fs appdir (some exe) = none) := by
  refine ⟨rfl, ?_, ?_, ?_, ?_, ?_, ?_⟩
  · intro bytes h
    simp only [read_elf_interp_dir, h]
  · intro bytes d h
    cases hp : headerParams bytes with
    | none =>
      rw [show read_elf_interp_dir (some bytes) = none by
        simp only [read_elf_interp_dir, hp]] at h
      exact Option.noConfusion h
    | some q =>
      obtain ⟨L, phoff, phentsize, phnum⟩ := q
      simp only [read_elf_interp_dir, hp] at h
      obtain ⟨k, _, hk2, hk3, hk4⟩ :=
        interpLoop_sound bytes L phoff phentsize phnum 0 d h
      obtain ⟨ph, seg, h1, h2, h3, h4⟩ :=
        interpAt_some bytes L phoff phentsize k d hk3
      exact ⟨L, phoff, phentsize, phnum, k, ph, seg, rfl, by omega, h1, h2, h3, h4,
        fun m hm => hk4 m (Nat.zero_le m) hm⟩
  · intro fs appdir
    rfl
  · intro fs appdir exe d h
    simp only [find_entrypoint_interp_dir, h]
  · intro fs appdir exe h hx
    simp only [find_entrypoint_interp_dir, h, hx, if_true]
  · intro fs appdir exe h hx
    simp only [find_entrypoint_interp_dir, h, hx]
    simp

/-- Evaluation of `interp_dir_sound` hypotheses at a concrete bundle: the
entrypoint target `/nix/store/x/bin/app` is absent from the host (direct
introspection fails), so the resolver falls back to the bundled copy and
extracts `/lib64` from its `PT_INTERP` segment. -/
theorem interp_dir_sound_witness :
    find_entrypoint_interp_dir
      (fun p => if p = "/bundle/nix/store/x/bin/app" then some sampleElf64 else none)
      "/bundle" (some "/nix/store/x/bin/app") = some "/lib64" := by
  have h := interp_dir_sound.2.2.2.2.2.1
    (fun p => if p = "/bundle/nix/store/x/bin/app" then some sampleElf64 else none)
    "/bundle" "/nix/store/x/bin/app" (by decide) (by decide)
  rw [h]
  decide

theorem collectLines_long_line (fs : String → Option (List Nat)) (id : elf_id) :
    ∀ (lines : List String) (acc : List String),
      (∃ l ∈ lines, max_line_bytes < l.length) →
      collectLines fs id acc lines = none := by
  intro lines
  induction lines with
  | nil =>
    intro acc h
    obtain ⟨l, hl, _⟩ := h
    exact absurd hl (List.not_mem_nil l)
  | cons l ls ih =>
    intro acc h
    by_cases hl : max_line_bytes < l.length
    · simp only [collectLines, if_pos hl]
    · obtain ⟨x, hx, hxlen⟩ := h
      have hxls : x ∈ ls := by
        rcases List.mem_cons.mp hx with rfl | hmem
        · exact absurd hxlen hl
        · exact hmem
      simp only [collectLines, if_neg hl]
      exact ih _ ⟨x, hxls, hxlen⟩

/-- C6: line handling of the library-cache enumerator.  A line without the
`=>` separator is skipped; a candidate whose ELF identification fails (or
whose trimmed path is empty) is skipped; a candidate whose
`{class, machine}` identity differs from the running executable's is
skipped; a matching candidate's directory is appended only when not
already present (preserving discovery order); and a single overlong line
fails the entire enumeration. -/
theorem ldconfig_enumeration :
    (∀ (fs : String → Option (List Nat)) (id : elf_id) (acc : List String) (l : String),
      afterArrow l.data = none → processLine fs id acc l = acc) ∧
    (∀ (fs : String → Option (List Nat)) (id : elf_id) (acc : List String) (l : String)
      (rest : List Char), afterArrow l.data = some rest →
      (trimC rest = "" ∨ read_elf_id (fs (trimC rest)) = none) →
      processLine fs id acc l = acc) ∧
    (∀ (fs : String → Option (List Nat)) (id : elf_id) (acc : List String) (l : String)
      (rest : List Char) (lib : elf_id), afterArrow l.data = some rest →
      trimC rest ≠ "" → read_elf_id (fs (trimC rest)) = some lib →
      (lib.elf_class ≠ id.elf_class ∨ lib.machine ≠ id.machine) →
      processLine fs id acc l = acc) ∧
    (∀ (fs : String → Option (List Nat)) (id : elf_id) (acc : List String) (l : String)
      (rest : List Char) (lib : elf_id), afterArrow l.data = some rest →
      trimC rest ≠ "" → read_elf_id (fs (trimC rest)) = some lib →
      lib.elf_class = id.elf_class → lib.machine = id.machine →
      processLine fs id acc l =
        (if acc.contains (dirnameStr (trimC rest)) then acc
         else acc ++ [dirnameStr (trimC rest)])) ∧
    (∀ (fs : String → Option (List Nat)) (selfFile : Option (List Nat))
      (lines : List String), (∃ l ∈ lines, max_line_bytes < l.length) →
      collect_ldconfig_dirs fs selfFile lines = none) := by
  refine ⟨?_, ?_, ?_, ?_, ?_⟩
  · intro fs id acc l h
    simp only [processLine, h]
  · intro fs id acc l rest harrow h
    rcases h with hempty | hfail
    · simp [processLine, harrow, hempty]
    · by_cases hempty : trimC rest = ""
      · simp [processLine, harrow, hempty]
      · simp only [processLine, harrow, if_neg hempty, hfail]
  · intro fs id acc l rest lib harrow hne hlib hmis
    simp only [processLine, harrow, if_neg hne, hlib, if_pos hmis]
  · intro fs id acc l rest lib harrow hne hlib hcls hmach
    have hmis : ¬ (lib.elf_class ≠ id.elf_class ∨ lib.machine ≠ id.machine) := by
      push_neg
      exact ⟨hcls, hmach⟩
    simp only [processLine, harrow, if_neg hne, hlib, if_neg hmis]
  · intro fs selfFile lines h
    cases hs : read_elf_id selfFile with
    | none => simp only [collect_ldconfig_dirs, hs]
    | some id =>
      simp only [collect_ldconfig_dirs, hs]
      exact collectLines_long_line fs id lines [] h

/-- Evaluation of `ldconfig_enumeration` on a concrete lister line: the
candidate is the sample 64-bit binary, matches the running executable's
identity `{class 64, machine 62}`, and its directory is appended after an
already-collected directory. -/
theorem ldconfig_enumeration_witness :
    processLine
      (fun p => if p = "/bundle/nix/store/x/bin/app" then some sampleElf64 else none)
      ⟨ELFCLASS64, 62⟩ ["/seen"]
      "\tlibc.so.6 (libc6,x86-64) => /bundle/nix/store/x/bin/app\n" =
      ["/seen", "/bundle/nix/store/x/bin"] := by
  have h := ldconfig_enumeration.2.2.2.1
    (fun p => if p = "/bundle/nix/store/x/bin/app" then some sampleElf64 else none)
    ⟨ELFCLASS64, 62⟩ ["/seen"]
    "\tlibc.so.6 (libc6,x86-64) => /bundle/nix/store/x/bin/app\n"
    (" /bundle/nix/store/x/bin/app\n".data)
    ⟨ELFCLASS64, 62⟩ (by decide) (by decide) (by decide) rfl rfl
  rw [h]
  decide

/-- C2 fails as stated: during root population, a `mkdir` failure for a
directory entry is routed through `die_if` and is fatal (exit 127), not
logged-and-skipped.  Concrete input: `/etc` stats as a directory and
`mkdir(<mountroot>/etc)` fails. -/
theorem populate_mkdir_fatal_counterexample :
    populateRoot mkdirFailOracle "/bundle/mountroot" ["etc"] =
      .error 127 := rfl

/-- C2 (amended): per-entry `stat` failures, bind-mount failures (for both
directory and non-directory entries), and `creat` failures are logged and
the entry skipped without aborting, and a non-fatal entry never blocks its
siblings (the loop simply continues); but a `mkdir` failure for a
directory entry is fatal (`die_if` exits with `EXIT_EXECERROR`). -/
theorem populate_best_effort :
    (∀ (o : FsOracle) (mr name : String),
      ¬ (name = "." ∨ name = ".." ∨ name = "nix") →
      o.statOf ("/" ++ name) = none →
      populateEntry o mr name = .ok [.logErr ("stat " ++ ("/" ++ name))]) ∧
    (∀ (o : FsOracle) (mr name : String) (st : statInfo),
      ¬ (name = "." ∨ name = ".." ∨ name = "nix") →
      o.statOf ("/" ++ name) = some st → st.isDir = true →
      o.mkdirOk (mr ++ "/" ++ name) = true →
      o.mountOk ("/" ++ name) (mr ++ "/" ++ name) = false →
      populateEntry o mr name =
        .ok [.mkdirAct (mr ++ "/" ++ name) (clearIFMT st.mode),
             .recBindAttempt ("/" ++ name) (mr ++ "/" ++ name),
             .logErr ("mount " ++ ("/" ++ name) ++ " -> " ++ (mr ++ "/" ++ name))]) ∧
    (∀ (o : FsOracle) (mr name : String) (st : statInfo),
      ¬ (name = "." ∨ name = ".." ∨ name = "nix") →
      o.statOf ("/" ++ name) = some st → st.isDir = false →
      o.creatOk (mr ++ "/" ++ name) = false →
      populateEntry o mr name = .ok [.logErr ("creat " ++ (mr ++ "/" ++ name))]) ∧
    (∀ (o : FsOracle) (mr name : String) (st : statInfo),
      ¬ (name = "." ∨ name = ".." ∨ name = "nix") →
      o.statOf ("/" ++ name) = some st → st.isDir = false →
      o.creatOk (mr ++ "/" ++ name) = true →
      o.mountOk ("/" ++ name) (mr ++ "/" ++ name) = false →
      populateEntry o mr name =
        .ok [.creatAct (mr ++ "/" ++ name) (clearIFMT st.mode),
             .recBindAttempt ("/" ++ name) (mr ++ "/" ++ name),
             .logErr ("mount " ++ ("/" ++ name) ++ " -> " ++ (mr ++ "/" ++ name))]) ∧
    (∀ (o : FsOracle) (mr name : String) (st : statInfo),
      ¬ (name = "." ∨ name = ".." ∨ name = "nix") →
      o.statOf ("/" ++ name) = some st → st.isDir = true →
      o.mkdirOk (mr ++ "/" ++ name) = false →
      populateEntry o mr name = .error EXIT_EXECERROR) ∧
    (∀ (o : FsOracle) (mr n : String) (ns : List String) (acts : List Action),
      populateEntry o mr n = .ok acts →
      populateRoot o mr (n :: ns) = (populateRoot o mr ns).map (fun r => acts ++ r)) := by
  refine ⟨?_, ?_, ?_, ?_, ?_, ?_⟩
  · intro o mr name hskip hstat
    simp [populateEntry, hskip, hstat]
  · intro o mr name st hskip hstat hdir hmk hmnt
    simp [populateEntry, hskip, hstat, hdir, hmk, hmnt]
  · intro o mr name st hskip hstat hdir hcr
    simp [populateEntry, hskip, hstat, hdir, hcr]
  · intro o mr name st hskip hstat hdir hcr hmnt
    simp [populateEntry, hskip, hstat, hdir, hcr, hmnt]
  · intro o mr name st hskip hstat hdir hmk
    simp [populateEntry, hskip, hstat, hdir, hmk]
  · intro o mr n ns acts h
    cases hrest : populateRoot o mr ns with
    | error c => simp [populateRoot, h, hrest, Except.map]
    | ok rest => simp [populateRoot, h, hrest, Except.map]

/-- Evaluation of `populate_best_effort` at a concrete input: `/usr` fails
to `stat` and is skipped with a log entry, while its sibling `/swapfile`
is still mirrored (created and bind-mounted). -/
theorem populate_best_effort_witness :
    populateRoot statFailOracle "/mr" ["usr", "swapfile"] =
      .ok [.logErr "stat /usr", .creatAct "/mr/swapfile" 420,
           .recBindAttempt "/swapfile" "/mr/swapfile"] := by
  have hentry := populate_best_effort.1 statFailOracle "/mr" "usr" (by decide) rfl
  have hcont := populate_best_effort.2.2.2.2.2 statFailOracle "/mr" "usr" ["swapfile"]
    [.logErr ("stat " ++ ("/" ++ "usr"))] hentry
  rw [hcont]
  rfl

/-- C3: the mount plan — `.`, `..` and `nix` are never mirrored; every
other entry whose `stat` succeeds is mirrored (a directory entry as a
`mkdir` with the source's permission bits, a non-directory as an empty
file with the source's permission bits, each followed by a recursive
bind-mount attempt), and all per-entry actions appear in the full run;
`<mountroot>/nix` is always created (mode 0777) and recursively
bind-mounted from `<appdir>/nix` — the store step consults no host state
and its failure is fatal (exit `EXIT_EXECERROR`). -/
theorem mount_plan_invariant :
    (∀ (o : FsOracle) (mr : String),
      populateEntry o mr "." = .ok [] ∧ populateEntry o mr ".." = .ok [] ∧
      populateEntry o mr "nix" = .ok []) ∧
    (∀ (o : FsOracle) (mr name : String) (st : statInfo),
      ¬ (name = "." ∨ name = ".." ∨ name = "nix") →
      o.statOf ("/" ++ name) = some st → st.isDir = true →
      o.mkdirOk (mr ++ "/" ++ name) = true →
      ∃ acts, populateEntry o mr name = .ok acts ∧
        Action.mkdirAct (mr ++ "/" ++ name) (clearIFMT st.mode) ∈ acts ∧
        Action.recBindAttempt ("/" ++ name) (mr ++ "/" ++ name) ∈ acts) ∧
    (∀ (o : FsOracle) (mr name : String) (st : statInfo),
      ¬ (name = "." ∨ name = ".." ∨ name = "nix") →
      o.statOf ("/" ++ name) = some st → st.isDir = false →
      o.creatOk (mr ++ "/" ++ name) = true →
      ∃ acts, populateEntry o mr name = .ok acts ∧
        Action.creatAct (mr ++ "/" ++ name) (clearIFMT st.mode) ∈ acts ∧
        Action.recBindAttempt ("/" ++ name) (mr ++ "/" ++ name) ∈ acts) ∧
    (∀ (o : FsOracle) (mr : String) (ns : List String) (acts : List Action),
      populateRoot o mr ns = .ok acts →
      ∀ n ∈ ns, ∃ a, populateEntry o mr n = .ok a ∧ ∀ x ∈ a, x ∈ acts) ∧
    (∀ (mkOk mntOk : Bool) (appdir mr : String) (acts : List Action),
      mountStore mkOk mntOk appdir mr = .ok acts →
      acts = [Action.mkdirAct (mr ++ "/nix") 511,
              Action.recBindAttempt (appdir ++ "/nix") (mr ++ "/nix")]) ∧
    (∀ (mkOk : Bool) (appdir mr : String),
      mountStore mkOk false appdir mr = .error EXIT_EXECERROR) := by
  refine ⟨?_, ?_, ?_, ?_, ?_, ?_⟩
  · intro o mr
    refine ⟨?_, ?_, ?_⟩ <;> simp [populateEntry]
  · intro o mr name st hskip hstat hdir hmk
    by_cases hmnt : o.mountOk ("/" ++ name) (mr ++ "/" ++ name) = true
    · refine ⟨[Action.mkdirAct (mr ++ "/" ++ name) (clearIFMT st.mode),
               Action.recBindAttempt ("/" ++ name) (mr ++ "/" ++ name)],
        by simp [populateEntry, hskip, hstat, hdir, hmk, hmnt], ?_, ?_⟩ <;> simp
    · have hmnt' : o.mountOk ("/" ++ name) (mr ++ "/" ++ name) = false :=
        Bool.eq_false_iff.mpr hmnt
      refine ⟨[Action.mkdirAct (mr ++ "/" ++ name) (clearIFMT st.mode),
               Action.recBindAttempt ("/" ++ name) (mr ++ "/" ++ name),
               Action.logErr ("mount " ++ ("/" ++ name) ++ " -> " ++ (mr ++ "/" ++ name))],
        by simp [populateEntry, hskip, hstat, hdir, hmk, hmnt'], ?_, ?_⟩ <;> simp
  · intro o mr name st hskip hstat hdir hcr
    by_cases hmnt : o.mountOk ("/" ++ name) (mr ++ "/" ++ name) = true
    · refine ⟨[Action.creatAct (mr ++ "/" ++ name) (clearIFMT st.mode),
               Action.recBindAttempt ("/" ++ name) (mr ++ "/" ++ name)],
        by simp [populateEntry, hskip, hstat, hdir, hcr, hmnt], ?_, ?_⟩ <;> simp
    · have hmnt' : o.mountOk ("/" ++ name) (mr ++ "/" ++ name) = false :=
        Bool.eq_false_iff.mpr hmnt
      refine ⟨[Action.creatAct (mr ++ "/" ++ name) (clearIFMT st.mode),
               Action.recBindAttempt ("/" ++ name) (mr ++ "/" ++ name),
               Action.logErr ("mount " ++ ("/" ++ name) ++ " -> " ++ (mr ++ "/" ++ name))],
        by simp [populateEntry, hskip, hstat, hdir, hcr, hmnt'], ?_, ?_⟩ <;> simp
  · intro o mr ns
    induction ns with
    | nil =>
      intro acts _ n hn
      exact absurd hn (List.not_mem_nil n)
    | cons m ms ih =>
      intro acts hrun n hn
      cases hent : populateEntry o mr m with
      | error c =>
        simp only [populateRoot, hent] at hrun
        exact Except.noConfusion hrun
      | ok a =>
        cases hrest : populateRoot o mr ms with
        | error c =>
          rw [show populateRoot o mr (m :: ms) = .error c by
            simp only [populateRoot, hent, hrest]] at hrun
          exact Except.noConfusion hrun
        | ok rest =>
          rw [show populateRoot o mr (m :: ms) = .ok (a ++ rest) by
            simp only [populateRoot, hent, hrest]] at hrun
          have hacts : acts = a ++ rest := (Except.ok.inj hrun).symm
          rcases List.mem_cons.mp hn with rfl | hmem
          · exact ⟨a, hent, fun x hx => by
              rw [hacts]
              exact List.mem_append.mpr (Or.inl hx)⟩
          · obtain ⟨b, hb1, hb2⟩ := ih rest hrest n hmem
            exact ⟨b, hb1, fun x hx => by
              rw [hacts]
              exact List.mem_append.mpr (Or.inr (hb2 x hx))⟩
  · intro mkOk mntOk appdir mr acts h
    by_cases hm : mkOk = true
    · by_cases hn : mntOk = true
      · rw [hm, hn] at h
        simp only [mountStore, if_pos rfl] at h
        exact (Except.ok.inj h).symm
      · rw [hm, Bool.eq_false_iff.mpr hn] at h
        simp only [mountStore] at h
        exact Except.noConfusion (h : Except.error EXIT_EXECERROR = Except.ok acts)
    · rw [Bool.eq_false_iff.mpr hm] at h
      simp only [mountStore] at h
      exact Except.noConfusion (h : Except.error EXIT_EXECERROR = Except.ok acts)
  · intro mkOk appdir mr
    by_cases hm : mkOk = true
    · rw [hm]
      rfl
    · rw [Bool.eq_false_iff.mpr hm]
      rfl

/-- Evaluation of `mount_plan_invariant` at a concrete input: with a fully
successful oracle, the directory entry `usr` is mirrored with its
permission bits and bind-mounted, and a failed store mount is fatal. -/
theorem mount_plan_invariant_witness :
    populateEntry okFsOracle "/mr" "usr" =
      .ok [.mkdirAct "/mr/usr" 493, .recBindAttempt "/usr" "/mr/usr"] ∧
    mountStore true false "/bundle" "/mr" = .error 127 := by
  obtain ⟨acts, ha, hmk, hbd⟩ := mount_plan_invariant.2.1 okFsOracle "/mr" "usr"
    ⟨true, 493⟩ (by decide) rfl rfl rfl
  exact ⟨rfl, mount_plan_invariant.2.2.2.2.2 true "/bundle" "/mr"⟩

/-! ## Theorems about identity mapping and the bootstrap state machine -/

theorem mapLine_count_one (a b : String) :
    a ++ " " ++ b ++ " " ++ toString (1 : Nat) ++ "\n" = a ++ " " ++ b ++ " 1\n" := by
  rw [show toString (1 : Nat) = "1" from rfl, String.append_assoc, String.append_assoc,
    show (" " ++ ("1" ++ "\n") : String) = " 1\n" from rfl]

/-- C4: a non-root caller requests a new user namespace in addition to the
mount namespace and performs exactly three writes: the single-line
identity uid map `"<uid> <uid> 1\n"`, then `"deny"` to `setgroups`
(strictly before the gid map write), then the single-line gid map; a root
caller requests only the mount namespace and performs no writes. -/
theorem identity_mapping (uid gid : Nat) (h : uid ≠ 0) :
    cloneFlags uid = ["CLONE_NEWNS", "CLONE_NEWUSER"] ∧
    identityEvents uid gid =
      [("/proc/self/uid_map", mapLineFields uid uid 1),
       ("/proc/self/setgroups", "deny"),
       ("/proc/self/gid_map", mapLineFields uid gid 1)] ∧
    ((identityEvents uid gid)[1]? = some ("/proc/self/setgroups", "deny") ∧
     (identityEvents uid gid)[2]? = some ("/proc/self/gid_map", mapLineFields uid gid 1)) ∧
    (∀ g : Nat, cloneFlags 0 = ["CLONE_NEWNS"] ∧ identityEvents 0 g = []) := by
  have hlist : identityEvents uid gid =
      [("/proc/self/uid_map", mapLineFields uid uid 1),
       ("/proc/self/setgroups", "deny"),
       ("/proc/self/gid_map", mapLineFields uid gid 1)] := by
    simp only [identityEvents, mapLineFields, if_pos h, mapLine_count_one]
  refine ⟨by simp [cloneFlags, h], hlist, ⟨?_, ?_⟩, ?_⟩
  · rw [hlist]
    rfl
  · rw [hlist]
    rfl
  · intro g
    exact ⟨by simp [cloneFlags], by simp [identityEvents]⟩

/-- Evaluation of `identity_mapping` for a caller with uid 1000, gid 1000:
the uid-map line is the literal `"1000 1000 1\n"` and `setgroups` is
denied at position 1, before the gid map at position 2. -/
theorem identity_mapping_witness :
    cloneFlags 1000 = ["CLONE_NEWNS", "CLONE_NEWUSER"] ∧
    identityEvents 1000 1000 =
      [("/proc/self/uid_map", "1000 1000 1\n"),
       ("/proc/self/setgroups", "deny"),
       ("/proc/self/gid_map", "1000 1000 1\n")] := by
  have h := identity_mapping 1000 1000 (by decide)
  refine ⟨h.1, ?_⟩
  rw [h.2.1]
  rfl

/-- C10: the gid-map line written for a non-root caller is
`"<uid> <gid> 1\n"` — its first (inside-namespace) field is the caller's
uid, not the caller's gid, so the caller's real gid is mapped onto the
numeric value of the uid inside the namespace. -/
theorem gid_map_inside_field_is_uid (uid gid : Nat) (h : uid ≠ 0) :
    (identityEvents uid gid).getLast? =
      some ("/proc/self/gid_map", mapLineFields uid gid 1) := by
  simp only [identityEvents, if_pos h, mapLineFields, mapLine_count_one]
  rfl

/-- Evaluation of `gid_map_inside_field_is_uid` at uid 1000, gid 100: the
line written is `"1000 100 1\n"`, not the `"100 100 1\n"` an identity gid
map would use. -/
theorem gid_map_inside_field_is_uid_witness :
    (identityEvents 1000 100).getLast? = some ("/proc/self/gid_map", "1000 100 1\n") ∧
    "1000 100 1\n" ≠ "100 100 1\n" := by
  have h := gid_map_inside_field_is_uid 1000 100 (by decide)
  refine ⟨?_, by decide⟩
  rw [h]
  rfl

theorem populateEntry_error (o : FsOracle) (mr name : String) (c : Nat)
    (h : populateEntry o mr name = .error c) : c = EXIT_EXECERROR := by
  simp only [populateEntry] at h
  repeat' split at h
  all_goals
    first
    | exact Except.noConfusion h
    | exact (Except.error.inj h).symm

theorem populateRoot_error (o : FsOracle) (mr : String) :
    ∀ (ns : List String) (c : Nat),
      populateRoot o mr ns = .error c → c = EXIT_EXECERROR := by
  intro ns
  induction ns with
  | nil =>
    intro c h
    exact Except.noConfusion h
  | cons n ms ih =>
    intro c h
    cases hent : populateEntry o mr n with
    | error c' =>
      simp only [populateRoot, hent] at h
      rw [← Except.error.inj h]
      exact populateEntry_error o mr n c' hent
    | ok a =>
      simp only [populateRoot, hent] at h
      cases hrest : populateRoot o mr ms with
      | error c'' =>
        rw [hrest] at h
        rw [← Except.error.inj h]
        exact ih c'' hrest
      | ok rest =>
        rw [hrest] at h
        exact Except.noConfusion h

theorem mountStore_error (mkOk mntOk : Bool) (appdir mr : String) (c : Nat)
    (h : mountStore mkOk mntOk appdir mr = .error c) : c = EXIT_EXECERROR := by
  unfold mountStore at h
  repeat' split at h
  all_goals
    first
    | exact Except.noConfusion h
    | exact (Except.error.inj h).symm

theorem child_main_cases (o : BootOracle) (uid gid : Nat) (appdir mountroot : String)
    (argv : List String) :
    child_main o uid gid appdir mountroot argv = .error EXIT_EXECERROR ∨
    (∃ exe, o.entryTarget = some exe ∧ o.execOk = true ∧
      child_main o uid gid appdir mountroot argv = .ok (exe, argv)) := by
  unfold child_main
  by_cases h1 : ¬ o.unshareOk
  · left
    rw [if_pos h1]
  rw [if_neg h1]
  by_cases h2 : uid ≠ 0 ∧ ¬ o.uidMapOk
  · left
    rw [if_pos h2]
  rw [if_neg h2]
  by_cases h3 : uid ≠ 0 ∧ ¬ o.setgroupsOk
  · left
    rw [if_pos h3]
  rw [if_neg h3]
  by_cases h4 : uid ≠ 0 ∧ ¬ o.gidMapOk
  · left
    rw [if_pos h4]
  rw [if_neg h4]
  by_cases h5 : ¬ o.tmpfsOk
  · left
    rw [if_pos h5]
  rw [if_neg h5]
  by_cases h6 : ¬ o.unbindableOk
  · left
    rw [if_pos h6]
  rw [if_neg h6]
  cases hroot : populateRoot o.fs mountroot o.rootEntries with
  | error c =>
    have hc := populateRoot_error o.fs mountroot o.rootEntries c hroot
    subst hc
    left
    simp only [hroot]
  | ok acts =>
    simp only [hroot]
    cases hstore : mountStore o.mkdirNixOk o.mountNixOk appdir mountroot with
    | error c =>
      have hc := mountStore_error o.mkdirNixOk o.mountNixOk appdir mountroot c hstore
      subst hc
      left
      simp only [hstore]
    | ok acts2 =>
      simp only [hstore]
      by_cases h7 : ¬ o.getcwdOk
      · left
        rw [if_pos h7]
      rw [if_neg h7]
      by_cases h8 : ¬ o.chrootOk
      · left
        rw [if_pos h8]
      rw [if_neg h8]
      by_cases h9 : ¬ o.chdirOk
      · left
        rw [if_pos h9]
      rw [if_neg h9]
      cases htgt : o.entryTarget with
      | none =>
        left
        simp only [htgt]
      | some exe =>
        simp only [htgt]
        by_cases h10 : o.execOk
        · right
          exact ⟨exe, rfl, h10, by rw [if_pos h10]⟩
        · left
          rw [if_neg h10]

/-- C8: every fatal failure anywhere in the bootstrap exits with the
single fixed status 127 (`EXIT_EXECERROR`), and on the success path the
process execs the entrypoint target with the original argument vector
(and so never returns). -/
theorem bootstrap_exit_codes (o : BootOracle) (uid gid : Nat)
    (appdir mountroot : String) (argv : List String) :
    (∀ c, child_main o uid gid appdir mountroot argv = .error c → c = 127) ∧
    (∀ exe args, child_main o uid gid appdir mountroot argv = .ok (exe, args) →
      args = argv ∧ o.entryTarget = some exe ∧ o.execOk = true) := by
  rcases child_main_cases o uid gid appdir mountroot argv with h | ⟨exe, htgt, hexec, h⟩
  · constructor
    · intro c hc
      exact (Except.error.inj (h.symm.trans hc)).symm
    · intro exe args hok
      rw [h] at hok
      exact Except.noConfusion hok
  · constructor
    · intro c hc
      rw [h] at hc
      exact Except.noConfusion hc
    · intro exe' args hok
      have hpair := Except.ok.inj (h.symm.trans hok)
      have he : exe = exe' := congrArg Prod.fst hpair
      have ha : argv = args := congrArg Prod.snd hpair
      exact ⟨ha.symm, he ▸ htgt, hexec⟩

/-- Evaluation of `bootstrap_exit_codes` on a concrete run: with every
syscall succeeding the bootstrap execs the resolved entrypoint with the
original argument vector, and with `unshare` failing it exits 127. -/
theorem bootstrap_exit_codes_witness :
    child_main okBootOracle 1000 1000 "/bundle" "/bundle/mountroot" ["app", "-v"] =
      .ok ("/nix/store/y/bin/app", ["app", "-v"]) ∧
    okBootOracle.entryTarget = some "/nix/store/y/bin/app" ∧
    child_main { okBootOracle with unshareOk := false } 1000 1000 "/bundle"
      "/bundle/mountroot" ["app", "-v"] = .error 127 := by
  have hrun : child_main okBootOracle 1000 1000 "/bundle" "/bundle/mountroot"
      ["app", "-v"] = .ok ("/nix/store/y/bin/app", ["app", "-v"]) := rfl
  have h := (bootstrap_exit_codes okBootOracle 1000 1000 "/bundle" "/bundle/mountroot"
    ["app", "-v"]).2 "/nix/store/y/bin/app" ["app", "-v"] hrun
  exact ⟨hrun, h.2.1, rfl⟩

end UsernsChroot
